import Mathlib

/-!
Verification of the eligibility-evaluation and criteria-parsing pipeline of the
clinical-trial matching backend (services/vertex_ai.py,
services/clinicaltrials_api.py, agents/workflow.py).

Text is modelled as `List Char`; Python string operations (split, strip,
lstrip, replace, lower, upper, substring membership) are embedded as
executable functions below.  Fallible external collaborators (the Gemini LLM
call, the clinicaltrials.gov API call, the Document AI call) are modelled as
explicit outcome parameters (`Option`/`Except`), since the surrounding code
treats them as opaque calls that either return text or raise.
-/

/-- Coerce a string literal to the `List Char` representation used throughout. -/
def str (s : String) : List Char := s.data

/-- Python `s.startswith(p)` on character lists. -/
def startsWith : List Char → List Char → Bool
  | [], _ => true
  | _ :: _, [] => false
  | p :: ps, c :: cs => p == c && startsWith ps cs

/-- Fuel-driven worker for Python `s.split(sep)` (non-empty `sep`):
splits at every non-overlapping occurrence, scanning left to right. -/
def splitOnAux (sep : List Char) : Nat → List Char → List Char → List (List Char)
  | _, [], acc => [acc.reverse]
  | 0, s, acc => [acc.reverse ++ s]
  | fuel + 1, c :: rest, acc =>
    if startsWith sep (c :: rest) then
      acc.reverse :: splitOnAux sep fuel (List.drop sep.length (c :: rest)) []
    else
      splitOnAux sep fuel rest (c :: acc)

/-- Python `s.split(sep)` for non-empty `sep`. -/
def splitOnSub (sep s : List Char) : List (List Char) :=
  splitOnAux sep s.length s []

/-- Fuel-driven worker locating the first occurrence of `sep`. -/
def splitFirstAux (sep : List Char) : Nat → List Char → List Char →
    Option (List Char × List Char)
  | _, [], _ => none
  | 0, _, _ => none
  | fuel + 1, c :: rest, acc =>
    if startsWith sep (c :: rest) then
      some (acc.reverse, List.drop sep.length (c :: rest))
    else
      splitFirstAux sep fuel rest (c :: acc)

/-- Split at the first occurrence of `sep`: `some (before, after)`, or `none`
when `sep` does not occur in `s`. -/
def splitFirst (sep s : List Char) : Option (List Char × List Char) :=
  splitFirstAux sep s.length s []

/-- Python `sep in s` (substring membership), as a bounded search. -/
def containsSub (sep s : List Char) : Bool :=
  (List.range (s.length + 1)).any fun i => startsWith sep (List.drop i s)

/-- Python `str.strip()` (whitespace from both ends). -/
def pyStrip (s : List Char) : List Char :=
  ((s.dropWhile Char.isWhitespace).reverse.dropWhile Char.isWhitespace).reverse

/-- Python `str.lstrip(chars)`: drop leading characters belonging to `chars`. -/
def pyLStrip (chars s : List Char) : List Char :=
  s.dropWhile fun c => chars.contains c

/-- Python `str.lower()` (ASCII case folding suffices for the texts involved). -/
def toLowerL (s : List Char) : List Char := s.map Char.toLower

/-- Python `str.upper()`. -/
def toUpperL (s : List Char) : List Char := s.map Char.toUpper

/-- Python `sep.join(parts)`. -/
def interLC (sep : List Char) : List (List Char) → List Char
  | [] => []
  | [x] => x
  | x :: y :: ys => x ++ sep ++ interLC sep (y :: ys)

/-- Python `s.replace(a, b)` (every non-overlapping occurrence, left to right). -/
def pyReplace (a b s : List Char) : List Char :=
  interLC b (splitOnSub a s)

/-- Last element of a list, with a default (Python `lst[-1]` under a
guarantee of non-emptiness). -/
def lastD (l : List (List Char)) : List Char := l.getLastD []

/-- Parse a decimal digit run; `none` when empty or a non-digit appears. -/
def parseNatDigits (s : List Char) : Option Nat :=
  if s ≠ [] && s.all Char.isDigit then
    some (s.foldl (fun a c => a * 10 + (c.toNat - 48)) 0)
  else
    none

/-- Python `int(s)` on an already-stripped string: optional sign followed by
decimal digits (digit-group underscores are not modelled). -/
def parseInt (s : List Char) : Option Int :=
  match s with
  | '-' :: ds => (parseNatDigits ds).map fun n => -(n : Int)
  | '+' :: ds => (parseNatDigits ds).map fun n => (n : Int)
  | ds => (parseNatDigits ds).map fun n => (n : Int)

/-- Decimal rendering of a natural number (Python `str(n)` for `n ≥ 0`). -/
def natRepr (n : Nat) : List Char := Nat.toDigits 10 n

/-- Decimal rendering of an integer (Python `str(i)`). -/
def intRepr : Int → List Char
  | Int.ofNat n => natRepr n
  | Int.negSucc n => '-' :: natRepr (n + 1)

/-! ## Data model

Mirrors the dictionaries flowing through the Python pipeline.  The patient
record keeps the keys the core logic reads (`name`, `age`, `allergies`,
`existing_conditions`, `summary`); `lab_results` is only interpolated into the
LLM prompt, which is not modelled.  `age` is `Option Int`: `none` models an
absent key, and Python truthiness makes `0` behave like an absent age. -/

structure Patient where
  name : List Char
  age : Option Int
  allergies : List (List Char)
  existing_conditions : List (List Char)
  summary : List Char
deriving DecidableEq

/-- The `type` key of a criterion dictionary; the repository only ever creates
the two literals `"inclusion"` and `"exclusion"`. -/
inductive CriterionType where
  | inclusion
  | exclusion
deriving DecidableEq

/-- A structured eligibility criterion (`{"criterion": ..., "type": ...}`). -/
structure Criterion where
  criterion : List Char
  type : CriterionType
deriving DecidableEq

/-- A per-criterion verdict as returned by `parse_gemini_response` /
`fallback_criterion_analysis`. -/
structure CriterionVerdict where
  criterion : List Char
  type : CriterionType
  eligible : Bool
  explanation : List Char
  confidence : List Char
  analyzed_by : List Char
deriving DecidableEq

/-- A structured trial record as produced by `parse_trials_data` /
`get_mock_trials`. -/
structure Trial where
  trial_id : List Char
  title : List Char
  conditions : List (List Char)
  eligibility_criteria : List Criterion
  description : List Char
  status : List Char
deriving DecidableEq

/-- A trial-level verdict as returned by `analyze_trial_eligibility`. -/
structure TrialVerdict where
  trial_id : List Char
  title : List Char
  criteria : List CriterionVerdict
  overall_eligible : Bool
  eligibility_summary : List Char
deriving DecidableEq

/-! ## services/vertex_ai.py -/

/-- Embeds the loop body of `parse_gemini_response` over one (already split) line of the
LLM response, updating the `(eligible, explanation, confidence)` state.  The
`elif` chain of the source is the nested `if`. -/
def parseGeminiStep (st : Bool × List Char × List Char) (line0 : List Char) :
    Bool × List Char × List Char :=
  let line := pyStrip line0
  if startsWith (str "ELIGIBLE:") line then
    (toUpperL (pyStrip (colonTail line)) == str "YES", st.2.1, st.2.2)
  else if startsWith (str "EXPLANATION:") line then
    (st.1, pyStrip (colonTail line), st.2.2)
  else if startsWith (str "CONFIDENCE:") line then
    (st.1, st.2.1, toUpperL (pyStrip (colonTail line)))
  else
    st
where
  /-- Python `line.split(":", 1)[1]`; the element exists because each branch
  is guarded by a `startswith` check whose prefix contains a colon. -/
  colonTail (l : List Char) : List Char :=
    match splitFirst [':'] l with
    | some pr => pr.2
    | none => []

/-- Embeds `parse_gemini_response(response_text, criterion)`. -/
def parse_gemini_response (response_text : List Char) (c : Criterion) :
    CriterionVerdict :=
  let st := (splitOnSub ['\n'] response_text).foldl parseGeminiStep
    (false, str "Unable to determine eligibility", str "LOW")
  { criterion := c.criterion
    type := c.type
    eligible := st.1
    explanation := st.2.1
    confidence := st.2.2
    analyzed_by := str "gemini" }

/-- Embeds `fallback_criterion_analysis(patient_data, criterion)`: the rule-based
fallback.  `eligible`/`explanation` start at their defaults and are
reassigned by the first branch of the `if`/`elif` chain that fires; the
`try ... except: pass` around `int(...)` is the `parseInt` match with the
`none` arm keeping the defaults. -/
def fallback_criterion_analysis (p : Patient) (c : Criterion) : CriterionVerdict :=
  let criterion_text := toLowerL c.criterion
  let ageTruthy : Bool := match p.age with
    | some a => a != 0
    | none => false
  let st : Bool × List Char :=
    if containsSub (str "age") criterion_text && ageTruthy then
      let age : Int := p.age.getD 0
      if containsSub (str ">=") criterion_text then
        match parseInt (pyStrip (lastD (splitOnSub (str ">=") criterion_text))) with
        | some min_age =>
          (decide (age ≥ min_age),
            str "Patient age (" ++ intRepr age ++ str ") vs minimum age (" ++
              intRepr min_age ++ str ")")
        | none => (true, str "Analyzed using rule-based fallback")
      else if containsSub (str "40-65") criterion_text then
        (decide (40 ≤ age ∧ age ≤ 65),
          str "Patient age (" ++ intRepr age ++ str ") vs required range (40-65)")
      else (true, str "Analyzed using rule-based fallback")
    else if containsSub (str "allergy") criterion_text && !p.allergies.isEmpty then
      let allergies := p.allergies.map toLowerL
      if containsSub (str "penicillin") (toLowerL criterion_text) then
        (!(allergies.contains (str "penicillin")),
          str "Patient allergies: " ++ interLC (str ", ") p.allergies)
      else (true, str "Analyzed using rule-based fallback")
    else if [str "diabetes", str "cancer", str "kidney"].any
        (fun cond => containsSub cond criterion_text) then
      let conditions := p.existing_conditions.map toLowerL
      if containsSub (str "diabetes") criterion_text then
        (conditions.any (fun cd => containsSub (str "diabetes") cd),
          str "Patient conditions: " ++ interLC (str ", ") p.existing_conditions)
      else if containsSub (str "cancer") criterion_text &&
          decide (c.type = CriterionType.exclusion) then
        (!(conditions.any fun cd => containsSub (str "cancer") cd),
          str "No cancer history found in patient conditions")
      else (true, str "Analyzed using rule-based fallback")
    else (true, str "Analyzed using rule-based fallback")
  { criterion := c.criterion
    type := c.type
    eligible := st.1
    explanation := st.2
    confidence := str "MEDIUM"
    analyzed_by := str "fallback" }

/-- Embeds `analyze_single_criterion(patient_data, criterion, trial)`.  The Gemini
call is modelled by its outcome `llm`: `some response` when
`call_gemini_api` returns `response`, `none` when the call (or anything in
the `try` block) raises — in which case the source falls back to the
rule-based analysis.  The prompt (and hence the `trial` argument) does not
influence the returned verdict and is not modelled. -/
def analyze_single_criterion (llm : Option (List Char)) (p : Patient)
    (c : Criterion) : CriterionVerdict :=
  match llm with
  | some response_text => parse_gemini_response response_text c
  | none => fallback_criterion_analysis p c

/-- Embeds `generate_eligibility_summary(criteria_results, overall_eligible)`. -/
def generate_eligibility_summary (criteria_results : List CriterionVerdict)
    (overall_eligible : Bool) : List Char :=
  let total_criteria := criteria_results.length
  let met_criteria := criteria_results.countP fun c => c.eligible
  if overall_eligible then
    str "Patient is ELIGIBLE. Meets " ++ natRepr met_criteria ++ str "/" ++
      natRepr total_criteria ++ str " criteria."
  else
    str "Patient is NOT ELIGIBLE. Meets " ++ natRepr met_criteria ++ str "/" ++
      natRepr total_criteria ++ str " criteria."

/-- Embeds `analyze_trial_eligibility(patient_data, trial)`.  Here `llmOracle i` is the
outcome of the Gemini call made for the `i`-th criterion of the trial. -/
def analyze_trial_eligibility (llmOracle : Nat → Option (List Char))
    (p : Patient) (t : Trial) : TrialVerdict :=
  let criteria_results := t.eligibility_criteria.mapIdx fun i c =>
    analyze_single_criterion (llmOracle i) p c
  let inclusion_criteria := criteria_results.filter fun c =>
    decide (c.type = CriterionType.inclusion)
  let exclusion_criteria := criteria_results.filter fun c =>
    decide (c.type = CriterionType.exclusion)
  let meets_inclusions := inclusion_criteria.all fun c => c.eligible
  let meets_exclusions := exclusion_criteria.all fun c => !c.eligible
  let overall_eligible := meets_inclusions && meets_exclusions
  { trial_id := t.trial_id
    title := t.title
    criteria := criteria_results
    overall_eligible := overall_eligible
    eligibility_summary := generate_eligibility_summary criteria_results overall_eligible }

/-- Embeds `run_eligibility_analysis(patient_data, trials)`: one trial verdict per
trial, in order.  `llmOracle i j` is the Gemini outcome for criterion `j` of
trial `i`.  (The `except` arm of the source is unreachable in this model
because every step here is total.) -/
def run_eligibility_analysis (llmOracle : Nat → Nat → Option (List Char))
    (p : Patient) (trials : List Trial) : List TrialVerdict :=
  trials.mapIdx fun i t => analyze_trial_eligibility (llmOracle i) p t

/-! ## services/clinicaltrials_api.py -/

/-- The delimiter `"Exclusion Criteria:"`. -/
def ECdelim : List Char := str "Exclusion Criteria:"

/-- The header `"Inclusion Criteria:"`. -/
def ICheader : List Char := str "Inclusion Criteria:"

/-- The character set of `lstrip('â€¢-*')` (the mojibake bullet of the source,
read back as the three characters it decodes to, plus dash and star). -/
def bulletChars : List Char := ['â', '€', '¢', '-', '*']

/-- The character set of `lstrip('123456789.')`. -/
def numberChars : List Char := ['1', '2', '3', '4', '5', '6', '7', '8', '9', '.']

/-- The per-line body of `extract_criteria_items`: strip, skip empty lines,
strip bullets and numbering, keep only lines longer than 10 characters. -/
def processItem (line0 : List Char) : Option (List Char) :=
  let line1 := pyStrip line0
  if line1 = [] then none
  else
    let line2 := pyStrip (pyLStrip bulletChars line1)
    let line3 := pyStrip (pyLStrip numberChars line2)
    if 10 < line3.length then some line3 else none

/-- Embeds `extract_criteria_items(text, criteria_type)`. -/
def extract_criteria_items (text : List Char) (criteria_type : CriterionType) :
    List Criterion :=
  (splitOnSub ['\n'] text).filterMap fun line0 =>
    match processItem line0 with
    | some line => some { criterion := line, type := criteria_type }
    | none => none

/-- Embeds `parse_eligibility_criteria(eligibility_text)`.  Note Python `str.split`
splits at *every* occurrence of `"Exclusion Criteria:"`; only `sections[0]`
and `sections[1]` are consumed, so text after a second occurrence is
discarded. -/
def parse_eligibility_criteria (eligibility_text : List Char) : List Criterion :=
  if eligibility_text = [] then []
  else
    let sections := splitOnSub ECdelim eligibility_text
    let inc := match sections.head? with
      | some s0 =>
        if s0 = [] then []
        else extract_criteria_items (pyStrip (pyReplace ICheader [] s0))
          CriterionType.inclusion
      | none => []
    let exc := match sections.get? 1 with
      | some s1 => extract_criteria_items (pyStrip s1) CriterionType.exclusion
      | none => []
    inc ++ exc

/-- Modelled from the claim wording of C4: split at the *first* occurrence of
the delimiter; items from the text before it (with the optional
`"Inclusion Criteria:"` header removed) are inclusion criteria, items from
the entire text after it are exclusion criteria; empty text yields no
criteria.  This is the reference point the source parser is compared with. -/
def parse_eligibility_criteria_claim (eligibility_text : List Char) : List Criterion :=
  if eligibility_text = [] then []
  else
    match splitFirst ECdelim eligibility_text with
    | none =>
      extract_criteria_items (pyStrip (pyReplace ICheader [] eligibility_text))
        CriterionType.inclusion
    | some (before, after) =>
      (if before = [] then []
       else extract_criteria_items (pyStrip (pyReplace ICheader [] before))
         CriterionType.inclusion)
      ++ extract_criteria_items (pyStrip after) CriterionType.exclusion

/-- Modelled from the claim wording of C9: serialize parsed items back into
criteria text — inclusion items under an `"Inclusion Criteria:"` header,
exclusion items under an `"Exclusion Criteria:"` header, one item per
line. -/
def serialize_criteria (cs : List Criterion) : List Char :=
  interLC ['\n']
    (ICheader ::
      ((cs.filter fun c => decide (c.type = CriterionType.inclusion)).map
          Criterion.criterion
        ++ ECdelim ::
          (cs.filter fun c => decide (c.type = CriterionType.exclusion)).map
            Criterion.criterion))

/-- The raw study fields of the clinicaltrials.gov v2 response consumed by
`parse_trials_data` (the nested `protocolSection`/module dictionaries are
flattened; an absent module makes all its fields absent). -/
structure RawStudy where
  nctId : Option (List Char)
  briefTitle : Option (List Char)
  eligibilityCriteria : Option (List Char)
  minimumAge : Option (List Char)
  maximumAge : Option (List Char)
  gender : Option (List Char)
  conditions : List (List Char)
  detailedDescription : Option (List Char)
deriving DecidableEq

/-- Embeds `parse_trials_data(trials_data)`. -/
def parse_trials_data (studies : List RawStudy) : List Trial :=
  studies.map fun study =>
    let eligibility_text := study.eligibilityCriteria.getD []
    let min_age := study.minimumAge.getD []
    let max_age := study.maximumAge.getD []
    let gender := study.gender.getD (str "ALL")
    let criteria := parse_eligibility_criteria eligibility_text
      ++ (if min_age ≠ [] then
            [{ criterion := str "Minimum age: " ++ min_age,
               type := CriterionType.inclusion }]
          else [])
      ++ (if max_age ≠ [] then
            [{ criterion := str "Maximum age: " ++ max_age,
               type := CriterionType.inclusion }]
          else [])
      ++ (if gender ≠ str "ALL" then
            [{ criterion := str "Gender: " ++ gender,
               type := CriterionType.inclusion }]
          else [])
    { trial_id := study.nctId.getD (str "Unknown")
      title := study.briefTitle.getD (str "Unknown Title")
      conditions := study.conditions
      eligibility_criteria := criteria
      description := study.detailedDescription.getD []
      status := str "RECRUITING" }

/-- Embeds `build_search_query(patient_data)`. -/
def build_search_query (p : Patient) : List Char :=
  let search_terms :=
    (if p.existing_conditions.isEmpty then []
     else p.existing_conditions.map pyStrip)
    ++ (match p.age with
        | some age =>
          if age != 0 then
            if age ≥ 65 then [str "elderly"]
            else if age ≥ 18 then [str "adult"]
            else []
          else []
        | none => [])
  if search_terms.isEmpty then str "diabetes"
  else interLC (str " OR ") search_terms

/-- Embeds `get_mock_trials()`. -/
def get_mock_trials : List Trial :=
  [{ trial_id := str "NCT01234567"
     title := str "A Study of Diabetes Treatment"
     conditions := [str "Diabetes Mellitus", str "Type 2 Diabetes"]
     eligibility_criteria :=
       [{ criterion := str "Age >= 18", type := CriterionType.inclusion },
        { criterion := str "Diagnosis of Type 2 Diabetes", type := CriterionType.inclusion },
        { criterion := str "No penicillin allergy", type := CriterionType.inclusion },
        { criterion := str "No history of cancer", type := CriterionType.exclusion }]
     description := str "This study evaluates a new treatment for diabetes."
     status := str "RECRUITING" },
   { trial_id := str "NCT07654321"
     title := str "New Insulin Regimen for Adults"
     conditions := [str "Diabetes Mellitus"]
     eligibility_criteria :=
       [{ criterion := str "Diabetes diagnosis", type := CriterionType.inclusion },
        { criterion := str "Age 40-65", type := CriterionType.inclusion },
        { criterion := str "No severe kidney disease", type := CriterionType.exclusion }]
     description := str "Testing a new insulin delivery method."
     status := str "RECRUITING" }]

/-- Embeds `fetch_trials(patient_data)`.  The clinicaltrials.gov call is modelled by
its outcome `api query`: `.ok studies` when the HTTP call returns parsed
JSON, `.error e` when it raises.  The `except` arm of the source catches
every error and substitutes the mock trials. -/
def fetch_trials (api : List Char → Except (List Char) (List RawStudy))
    (p : Patient) : List Trial :=
  match api (build_search_query p) with
  | Except.ok trials_data => parse_trials_data trials_data
  | Except.error _ => get_mock_trials

/-! ## agents/workflow.py -/

/-- The `context` dictionary built by `run_agent_workflow`; `none` fields
model keys that were never written.  On the success path the source never
writes `status`, so a completed run has `status = none`. -/
structure WorkflowContext where
  pdf_path : List Char
  parsed_data : Option Patient := none
  trials : Option (List Trial) := none
  eligibility_results : Option (List TrialVerdict) := none
  error : Option (List Char) := none
  status : Option (List Char) := none
deriving DecidableEq

/-- Embeds `run_agent_workflow(patient_pdf_path)`.  The Document AI call is modelled
by its outcome `docai` (`.error e` when `parse_pdf_with_document_ai`
raises); the trial-search HTTP call by `api`; the Gemini calls by
`llmOracle`.  Telemetry (`log_*`, `finalize_session`) has no effect on the
returned context and is not modelled.  In this model only the parsing stage
can raise: `fetch_trials` and `run_eligibility_analysis` recover internally
from the failures of their own collaborators, so the `except` arm of the
source is reached exactly when `docai` fails. -/
def run_agent_workflow (docai : Except (List Char) Patient)
    (api : List Char → Except (List Char) (List RawStudy))
    (llmOracle : Nat → Nat → Option (List Char))
    (patient_pdf_path : List Char) : WorkflowContext :=
  match docai with
  | Except.error e =>
    { pdf_path := patient_pdf_path
      error := some e
      status := some (str "failed") }
  | Except.ok parsed_data =>
    let trials := fetch_trials api parsed_data
    let eligibility_results := run_eligibility_analysis llmOracle parsed_data trials
    { pdf_path := patient_pdf_path
      parsed_data := some parsed_data
      trials := some trials
      eligibility_results := some eligibility_results }

/-! ## Concrete fixtures used by witnesses and counterexamples -/

/-- A patient record matching the end-to-end example of the specification:
conditions `["Diabetes"]`, age 55. -/
def samplePatient : Patient :=
  { name := str "John Smith"
    age := some 55
    allergies := [str "Penicillin"]
    existing_conditions := [str "Diabetes"]
    summary := str "55 year old patient with diabetes" }

/-- A trial with two inclusion criteria and no exclusion criteria, both
satisfied by `samplePatient` under the rule-based fallback. -/
def sampleTrial : Trial :=
  { trial_id := str "NCT00000001"
    title := str "Sample Trial"
    conditions := [str "Diabetes"]
    eligibility_criteria :=
      [{ criterion := str "Age >= 18", type := CriterionType.inclusion },
       { criterion := str "Diabetes diagnosis required", type := CriterionType.inclusion }]
    description := []
    status := str "RECRUITING" }

/-- A trial whose criteria list is empty. -/
def emptyTrial : Trial :=
  { trial_id := str "NCT00000002"
    title := str "Empty Trial"
    conditions := []
    eligibility_criteria := []
    description := []
    status := str "RECRUITING" }

/-! ## Claim C1 — trial-level aggregation invariant -/

/-- Claim C1: for every patient and trial (and every outcome of the
per-criterion LLM calls), the verdict returned by
`analyze_trial_eligibility` satisfies
`overall_eligible = true` exactly when every inclusion-typed criterion
verdict is eligible and no exclusion-typed criterion verdict is eligible;
and a trial with an empty criteria list is overall eligible. -/
theorem claimC1_aggregator_invariant (llmOracle : Nat → Option (List Char))
    (p : Patient) (t : Trial) :
    ((analyze_trial_eligibility llmOracle p t).overall_eligible = true ↔
      ((∀ v ∈ (analyze_trial_eligibility llmOracle p t).criteria,
          v.type = CriterionType.inclusion → v.eligible = true) ∧
       (∀ v ∈ (analyze_trial_eligibility llmOracle p t).criteria,
          v.type = CriterionType.exclusion → v.eligible = false))) ∧
    (t.eligibility_criteria = [] →
      (analyze_trial_eligibility llmOracle p t).overall_eligible = true) := by
  constructor
  · simp only [analyze_trial_eligibility, Bool.and_eq_true, List.all_eq_true,
      List.mem_filter, decide_eq_true_eq, and_imp, Bool.not_eq_true']
  · intro h
    simp [analyze_trial_eligibility, h]

/-- Witness for C1: the empty-criteria clause at a concrete trial. -/
theorem claimC1_aggregator_invariant_witness :
    (analyze_trial_eligibility (fun _ => none) samplePatient emptyTrial).overall_eligible
      = true :=
  (claimC1_aggregator_invariant (fun _ => none) samplePatient emptyTrial).2 rfl

/-! ## Claim C2 — criterion evaluation never raises; failures degrade to the
fallback verdict -/

/-- Claim C2: when the LLM call fails (`none` outcome), the criterion
evaluator returns exactly the rule-based fallback verdict, and that verdict
always carries provenance `analyzed_by = "fallback"` and confidence
`MEDIUM`; the evaluator is a total function, so no error propagates. -/
theorem claimC2_fallback_on_failure (p : Patient) (c : Criterion) :
    analyze_single_criterion none p c = fallback_criterion_analysis p c ∧
    (fallback_criterion_analysis p c).analyzed_by = str "fallback" ∧
    (fallback_criterion_analysis p c).confidence = str "MEDIUM" :=
  ⟨rfl, rfl, rfl⟩

/-! ## Claim C3 — behaviour of the workflow when the trial search fails -/

/-- Counterexample to C3: a run whose trial-search API call raises does NOT
terminate as a failure — `fetch_trials` silently substitutes the mock
trials and the workflow completes, with no `status = "failed"` and no
error recorded. -/
theorem claimC3_counterexample :
    (run_agent_workflow (Except.ok samplePatient)
        (fun _ => Except.error (str "ConnectionError")) (fun _ _ => none)
        (str "patient.pdf")).status = none ∧
    (run_agent_workflow (Except.ok samplePatient)
        (fun _ => Except.error (str "ConnectionError")) (fun _ _ => none)
        (str "patient.pdf")).error = none ∧
    (run_agent_workflow (Except.ok samplePatient)
        (fun _ => Except.error (str "ConnectionError")) (fun _ _ => none)
        (str "patient.pdf")).trials = some get_mock_trials :=
  ⟨rfl, rfl, rfl⟩

/-- Amended C3: a trial-search API failure is recovered *inside* the search
stage — the workflow completes with the mock trials substituted and all
earlier context (the parsed patient) preserved, and no failure status is
recorded.  A structured `status = "failed"` result with the error string
and the accumulated context arises exactly when a stage itself raises,
which in this model only document parsing can do. -/
theorem claimC3_amended_search_failure_recovered :
    (∀ (p : Patient) (api : List Char → Except (List Char) (List RawStudy))
        (llmOracle : Nat → Nat → Option (List Char)) (path e : List Char),
      api (build_search_query p) = Except.error e →
      run_agent_workflow (Except.ok p) api llmOracle path =
        { pdf_path := path
          parsed_data := some p
          trials := some get_mock_trials
          eligibility_results :=
            some (run_eligibility_analysis llmOracle p get_mock_trials) }) ∧
    (∀ (api : List Char → Except (List Char) (List RawStudy))
        (llmOracle : Nat → Nat → Option (List Char)) (path e : List Char),
      run_agent_workflow (Except.error e) api llmOracle path =
        { pdf_path := path, error := some e, status := some (str "failed") }) := by
  constructor
  · intro p api llmOracle path e h
    simp [run_agent_workflow, fetch_trials, h]
  · intro api llmOracle path e
    rfl

/-- Witness for the amended C3 at a concrete failing search API. -/
theorem claimC3_amended_search_failure_recovered_witness :
    run_agent_workflow (Except.ok samplePatient)
        (fun _ => Except.error (str "ConnectionError")) (fun _ _ => none)
        (str "patient.pdf") =
      { pdf_path := str "patient.pdf"
        parsed_data := some samplePatient
        trials := some get_mock_trials
        eligibility_results :=
          some (run_eligibility_analysis (fun _ _ => none) samplePatient
            get_mock_trials) } :=
  claimC3_amended_search_failure_recovered.1 samplePatient
    (fun _ => Except.error (str "ConnectionError")) (fun _ _ => none)
    (str "patient.pdf") (str "ConnectionError") rfl

/-! ## Claim C7 — the eligibility summary string -/

/-- Claim C7: the summary is exactly
`"Patient is ELIGIBLE. Meets {met}/{total} criteria."` (resp.
`NOT ELIGIBLE`), with `total` the number of verdicts and `met` the count of
verdicts with `eligible = true` regardless of criterion type; and on the
end-to-end example (patient with conditions `["Diabetes"]`, age 55, trial
with two satisfied inclusion criteria and no exclusion criteria) the
aggregator produces `"Patient is ELIGIBLE. Meets 2/2 criteria."`. -/
theorem claimC7_summary_format :
    (∀ (criteria_results : List CriterionVerdict) (overall : Bool),
      generate_eligibility_summary criteria_results overall =
        (if overall then str "Patient is ELIGIBLE. Meets "
         else str "Patient is NOT ELIGIBLE. Meets ")
          ++ natRepr (criteria_results.countP fun c => c.eligible)
          ++ str "/" ++ natRepr criteria_results.length ++ str " criteria.") ∧
    (analyze_trial_eligibility (fun _ => none) samplePatient sampleTrial).eligibility_summary
      = str "Patient is ELIGIBLE. Meets 2/2 criteria." := by
  refine ⟨fun criteria_results overall => ?_, by decide⟩
  cases overall <;> rfl

/-! ## Claim C5 — the age rules of the fallback evaluator -/

/-- A patient of age 30 (no other attributes), used to refute the general
range rule claimed by C5. -/
def rangePatient : Patient :=
  { name := str "R", age := some 30, allergies := [], existing_conditions := [],
    summary := [] }

/-- A criterion exhibiting an explicit `N-M` age range other than `40-65`. -/
def rangeCriterion : Criterion :=
  { criterion := str "Age 50-70", type := CriterionType.inclusion }

/-- Counterexample to C5: for the explicit range pattern `50-70` and a patient
of age 30 the claim demands `eligible = (50 <= 30 <= 70) = false`, but the
fallback only recognises the literal substring `"40-65"` and returns the
default `eligible = true`. -/
theorem claimC5_counterexample :
    containsSub (str "age") (toLowerL rangeCriterion.criterion) = true ∧
    (fallback_criterion_analysis rangePatient rangeCriterion).eligible = true ∧
    ¬(50 ≤ (30 : Int) ∧ (30 : Int) ≤ 70) := by
  decide

/-- Amended C5: for a patient with a known non-zero age and a criterion
mentioning age, a `">= N"` comparison (whose text after the last `">="`
parses as an integer `N`) yields `eligible = (age >= N)`; the range rule
applies only to the literal substring `"40-65"` (not to general `N-M`
patterns) and then yields `eligible = (40 <= age <= 65)`. -/
theorem claimC5_amended_age_rules (p : Patient) (c : Criterion) (a : Int)
    (hage : p.age = some a) (hnz : a ≠ 0)
    (hmention : containsSub (str "age") (toLowerL c.criterion) = true) :
    (∀ n : Int, containsSub (str ">=") (toLowerL c.criterion) = true →
      parseInt (pyStrip (lastD (splitOnSub (str ">=") (toLowerL c.criterion))))
        = some n →
      (fallback_criterion_analysis p c).eligible = decide (a ≥ n)) ∧
    (containsSub (str ">=") (toLowerL c.criterion) = false →
      containsSub (str "40-65") (toLowerL c.criterion) = true →
      (fallback_criterion_analysis p c).eligible = decide (40 ≤ a ∧ a ≤ 65)) := by
  constructor
  · intro n hge hparse
    simp [fallback_criterion_analysis, hmention, hage, hnz, hge, hparse]
  · intro hge hrange
    simp [fallback_criterion_analysis, hmention, hage, hnz, hge, hrange]

/-- Witness for the amended C5: the specification example — criterion
`"Age >= 18"`, patient age 55 — gives `eligible = (55 >= 18) = true`. -/
theorem claimC5_amended_age_rules_witness :
    (fallback_criterion_analysis samplePatient
        { criterion := str "Age >= 18", type := CriterionType.inclusion }).eligible
      = decide ((55 : Int) ≥ 18) :=
  (claimC5_amended_age_rules samplePatient
      { criterion := str "Age >= 18", type := CriterionType.inclusion } 55 rfl
      (by decide) (by decide)).1 18 (by decide) (by decide)

/-! ## Claim C6 — the condition-keyword rules of the fallback evaluator -/

/-- A patient with no recorded conditions. -/
def noCondPatient : Patient :=
  { name := str "N", age := none, allergies := [], existing_conditions := [],
    summary := [] }

/-- An exclusion criterion mentioning both diabetes and cancer. -/
def mixedCriterion : Criterion :=
  { criterion := str "No history of diabetes or cancer",
    type := CriterionType.exclusion }

/-- Counterexample to C6: the criterion contains the keyword `"cancer"` and is
exclusion-typed, and no patient condition contains `"cancer"`, so the claim
demands `eligible = true`; but the `"diabetes"` rule takes priority and
returns `eligible = false` (no condition contains `"diabetes"` either). -/
theorem claimC6_counterexample :
    containsSub (str "cancer") (toLowerL mixedCriterion.criterion) = true ∧
    mixedCriterion.type = CriterionType.exclusion ∧
    ((noCondPatient.existing_conditions.map toLowerL).any fun cd =>
      containsSub (str "cancer") cd) = false ∧
    (fallback_criterion_analysis noCondPatient mixedCriterion).eligible = false := by
  decide

/-- Amended C6: when the condition branch is reached (the age branch is not
taken because the text does not mention age or the age is unknown/zero,
and the allergy branch is not taken), the keyword rules are, in priority
order: `"diabetes"` in the text decides
`eligible = (some condition contains "diabetes")`; otherwise `"cancer"` in
the text with an exclusion-typed criterion decides
`eligible = (no condition contains "cancer")`; otherwise — in particular
for the keyword `"kidney"`, which has no rule of its own — the verdict is
the default `eligible = true`. -/
theorem claimC6_amended_condition_rules (p : Patient) (c : Criterion)
    (hage : containsSub (str "age") (toLowerL c.criterion) = false ∨
      p.age = none ∨ p.age = some 0)
    (hallergy : containsSub (str "allergy") (toLowerL c.criterion) = false ∨
      p.allergies = []) :
    (containsSub (str "diabetes") (toLowerL c.criterion) = true →
      (fallback_criterion_analysis p c).eligible =
        ((p.existing_conditions.map toLowerL).any fun cd =>
          containsSub (str "diabetes") cd)) ∧
    (containsSub (str "diabetes") (toLowerL c.criterion) = false →
      containsSub (str "cancer") (toLowerL c.criterion) = true →
      c.type = CriterionType.exclusion →
      (fallback_criterion_analysis p c).eligible =
        !((p.existing_conditions.map toLowerL).any fun cd =>
          containsSub (str "cancer") cd)) ∧
    (containsSub (str "diabetes") (toLowerL c.criterion) = false →
      (containsSub (str "cancer") (toLowerL c.criterion) = false ∨
        c.type = CriterionType.inclusion) →
      containsSub (str "kidney") (toLowerL c.criterion) = true →
      (fallback_criterion_analysis p c).eligible = true) := by
  have hageGuard :
      (containsSub (str "age") (toLowerL c.criterion) &&
        (match p.age with
          | some a => a != 0
          | none => false)) = false := by
    rcases hage with h | h | h
    · simp [h]
    · simp [h]
    · simp [h]
  have hallergyGuard :
      (containsSub (str "allergy") (toLowerL c.criterion) &&
        !p.allergies.isEmpty) = false := by
    rcases hallergy with h | h
    · simp [h]
    · simp [h]
  refine ⟨fun hdia => ?_, fun hdia hcan hexc => ?_, fun hdia hcan hkid => ?_⟩
  · simp only [fallback_criterion_analysis, hageGuard, hallergyGuard,
      Bool.false_eq_true, if_false]
    simp [hdia]
  · simp only [fallback_criterion_analysis, hageGuard, hallergyGuard,
      Bool.false_eq_true, if_false]
    simp [hdia, hcan, hexc]
  · simp only [fallback_criterion_analysis, hageGuard, hallergyGuard,
      Bool.false_eq_true, if_false]
    rcases hcan with h | h
    · simp [hdia, h, hkid]
    · simp [hdia, h, hkid]

/-- Witness for the amended C6: the diabetes rule at a concrete patient and
criterion. -/
theorem claimC6_amended_condition_rules_witness :
    (fallback_criterion_analysis samplePatient
        { criterion := str "Diabetes diagnosis", type := CriterionType.inclusion }).eligible
      = ((samplePatient.existing_conditions.map toLowerL).any fun cd =>
          containsSub (str "diabetes") cd) :=
  (claimC6_amended_condition_rules samplePatient
      { criterion := str "Diabetes diagnosis", type := CriterionType.inclusion }
      (Or.inl (by decide)) (Or.inl (by decide))).1 (by decide)

/-! ## Claim C10 — patients with unknown or zero age -/

/-- A patient with no age and a penicillin allergy. -/
def agelessPatient : Patient :=
  { name := str "J", age := none, allergies := [str "Penicillin"],
    existing_conditions := [], summary := [] }

/-- An age-mentioning criterion that also matches the allergy rule. -/
def ageAllergyCriterion : Criterion :=
  { criterion := str "No penicillin allergy at any age",
    type := CriterionType.inclusion }

/-- Counterexample to C10: the criterion mentions age and the patient has no
age, yet the verdict is NOT the default `eligible = true` — skipping the
age branch makes control fall through to the allergy branch, which decides
`eligible = false` for this penicillin-allergic patient. -/
theorem claimC10_counterexample :
    containsSub (str "age") (toLowerL ageAllergyCriterion.criterion) = true ∧
    agelessPatient.age = none ∧
    (fallback_criterion_analysis agelessPatient ageAllergyCriterion).eligible
      = false := by
  decide

/-- Amended C10: for a patient whose age is absent or zero the age rules are
skipped entirely — the verdict is the same as for a patient with no age at
all — and the criterion falls through to the later branches; the default
`eligible = true` with confidence `MEDIUM` is produced only when neither
the allergy branch nor the condition-keyword branch fires. -/
theorem claimC10_amended_age_skipped (p : Patient) (c : Criterion)
    (hage : p.age = none ∨ p.age = some 0) :
    (fallback_criterion_analysis p c =
      fallback_criterion_analysis
        { name := p.name, age := none, allergies := p.allergies,
          existing_conditions := p.existing_conditions, summary := p.summary } c) ∧
    ((containsSub (str "allergy") (toLowerL c.criterion) = false ∨
        p.allergies = []) →
      containsSub (str "diabetes") (toLowerL c.criterion) = false →
      containsSub (str "cancer") (toLowerL c.criterion) = false →
      containsSub (str "kidney") (toLowerL c.criterion) = false →
      fallback_criterion_analysis p c =
        { criterion := c.criterion, type := c.type, eligible := true,
          explanation := str "Analyzed using rule-based fallback",
          confidence := str "MEDIUM", analyzed_by := str "fallback" }) := by
  obtain ⟨name, age, allergies, conditions, summary⟩ := p
  constructor
  · rcases hage with h | h <;> (simp only at h; subst h)
    · rfl
    · simp [fallback_criterion_analysis]
  · intro hallergy hdia hcan hkid
    rcases hage with h | h <;> (simp only at h; subst h) <;>
      rcases hallergy with h2 | h2 <;>
      first
      | (simp only at h2; subst h2;
         simp [fallback_criterion_analysis, hdia, hcan, hkid])
      | simp [fallback_criterion_analysis, h2, hdia, hcan, hkid]

/-- Witness for the amended C10 at a concrete ageless patient and an
age-range criterion matching no other rule. -/
theorem claimC10_amended_age_skipped_witness :
    fallback_criterion_analysis
        { name := str "J", age := none, allergies := [str "Penicillin"],
          existing_conditions := [], summary := [] }
        { criterion := str "Age 40-65", type := CriterionType.inclusion } =
      { criterion := str "Age 40-65", type := CriterionType.inclusion,
        eligible := true,
        explanation := str "Analyzed using rule-based fallback",
        confidence := str "MEDIUM", analyzed_by := str "fallback" } :=
  (claimC10_amended_age_skipped _ _ (Or.inl rfl)).2 (Or.inl (by decide))
    (by decide) (by decide) (by decide)

/-! ## Claim C8 — parsing the LLM response -/

/-- A line that does not (after stripping) start with `"ELIGIBLE:"` leaves the
`eligible` component of the parse state unchanged. -/
theorem parseGeminiStep_fst (st : Bool × List Char × List Char) (l : List Char)
    (h : startsWith (str "ELIGIBLE:") (pyStrip l) = false) :
    (parseGeminiStep st l).1 = st.1 := by
  simp only [parseGeminiStep, h, Bool.false_eq_true, if_false]
  split_ifs <;> rfl

/-- The `eligible` component after the fold is decided by the *last* line
starting with `"ELIGIBLE:"` (the source loop overwrites on every match), or
keeps its incoming value when no line matches. -/
theorem foldl_parseGeminiStep_fst (lines : List (List Char))
    (st : Bool × List Char × List Char) :
    (lines.foldl parseGeminiStep st).1 =
      match lines.reverse.find?
          (fun l => startsWith (str "ELIGIBLE:") (pyStrip l)) with
      | some l =>
        toUpperL (pyStrip (parseGeminiStep.colonTail (pyStrip l))) == str "YES"
      | none => st.1 := by
  induction lines using List.reverseRecOn generalizing st with
  | nil => rfl
  | append_singleton ls a ih =>
    rw [List.foldl_append, List.foldl_cons, List.foldl_nil, List.reverse_append,
      List.reverse_singleton, List.singleton_append]
    cases ha : startsWith (str "ELIGIBLE:") (pyStrip a) with
    | true =>
      simp only [List.find?, ha]
      simp [parseGeminiStep, ha]
    | false =>
      simp only [List.find?, ha]
      rw [parseGeminiStep_fst _ _ ha]
      exact ih st

/-- When no line starts with `"EXPLANATION:"`, the explanation component keeps
its incoming value. -/
theorem foldl_parseGeminiStep_expl (lines : List (List Char))
    (st : Bool × List Char × List Char)
    (h : ∀ l ∈ lines, startsWith (str "EXPLANATION:") (pyStrip l) = false) :
    (lines.foldl parseGeminiStep st).2.1 = st.2.1 := by
  induction lines generalizing st with
  | nil => rfl
  | cons a ls ih =>
    rw [List.foldl_cons, ih _ fun l hl => h l (List.mem_cons_of_mem a hl)]
    have ha := h a (List.mem_cons_self a ls)
    simp only [parseGeminiStep, ha, Bool.false_eq_true, if_false]
    split_ifs <;> rfl

/-- When no line starts with `"CONFIDENCE:"`, the confidence component keeps
its incoming value. -/
theorem foldl_parseGeminiStep_conf (lines : List (List Char))
    (st : Bool × List Char × List Char)
    (h : ∀ l ∈ lines, startsWith (str "CONFIDENCE:") (pyStrip l) = false) :
    (lines.foldl parseGeminiStep st).2.2 = st.2.2 := by
  induction lines generalizing st with
  | nil => rfl
  | cons a ls ih =>
    rw [List.foldl_cons, ih _ fun l hl => h l (List.mem_cons_of_mem a hl)]
    have ha := h a (List.mem_cons_self a ls)
    simp only [parseGeminiStep, ha, Bool.false_eq_true, if_false]
    split_ifs <;> rfl

/-- A criterion used only as a carrier in response-parsing statements. -/
def genericCriterion : Criterion :=
  { criterion := str "Some eligibility criterion", type := CriterionType.inclusion }

/-- A response containing two `ELIGIBLE:` lines, `YES` before `NO`. -/
def doubleEligResponse : List Char := str "ELIGIBLE: YES\nELIGIBLE: NO"

/-- Counterexample to C8: the response contains a line starting with
`"ELIGIBLE:"` whose value is exactly `"YES"`, so the claim demands
`eligible = true`; but the loop overwrites on every matching line and the
last one (`NO`) wins, yielding `eligible = false`. -/
theorem claimC8_counterexample :
    (parse_gemini_response doubleEligResponse genericCriterion).eligible = false ∧
    ∃ l ∈ splitOnSub ['\n'] doubleEligResponse,
      startsWith (str "ELIGIBLE:") (pyStrip l) = true ∧
      toUpperL (pyStrip (parseGeminiStep.colonTail (pyStrip l))) = str "YES" := by
  refine ⟨by decide, str "ELIGIBLE: YES", by decide, by decide, by decide⟩

/-- Amended C8: the parsed `eligible` flag is decided by the *last* line
starting with `"ELIGIBLE:"` — true exactly when its value, trimmed and
uppercased, is `"YES"` — and is false when no such line exists; when no
`"EXPLANATION:"` (resp. `"CONFIDENCE:"`) line is present the field keeps
its default `"Unable to determine eligibility"` (resp. `"LOW"`); and a
verdict for the given criterion is always produced (the parser is total),
so a malformed response cannot abort the trial analysis. -/
theorem claimC8_amended_response_parsing (response_text : List Char)
    (c : Criterion) :
    ((parse_gemini_response response_text c).eligible =
      match (splitOnSub ['\n'] response_text).reverse.find?
          (fun l => startsWith (str "ELIGIBLE:") (pyStrip l)) with
      | some l =>
        toUpperL (pyStrip (parseGeminiStep.colonTail (pyStrip l))) == str "YES"
      | none => false) ∧
    ((∀ l ∈ splitOnSub ['\n'] response_text,
        startsWith (str "EXPLANATION:") (pyStrip l) = false) →
      (parse_gemini_response response_text c).explanation =
        str "Unable to determine eligibility") ∧
    ((∀ l ∈ splitOnSub ['\n'] response_text,
        startsWith (str "CONFIDENCE:") (pyStrip l) = false) →
      (parse_gemini_response response_text c).confidence = str "LOW") ∧
    (parse_gemini_response response_text c).criterion = c.criterion ∧
    (parse_gemini_response response_text c).type = c.type := by
  refine ⟨?_, fun h => ?_, fun h => ?_, rfl, rfl⟩
  · exact foldl_parseGeminiStep_fst (splitOnSub ['\n'] response_text) _
  · exact foldl_parseGeminiStep_expl (splitOnSub ['\n'] response_text) _ h
  · exact foldl_parseGeminiStep_conf (splitOnSub ['\n'] response_text) _ h

/-- Witness for the amended C8: a response with only an `ELIGIBLE:` line keeps
the default explanation and confidence. -/
theorem claimC8_amended_response_parsing_witness :
    (parse_gemini_response (str "ELIGIBLE: YES") genericCriterion).explanation =
      str "Unable to determine eligibility" ∧
    (parse_gemini_response (str "ELIGIBLE: YES") genericCriterion).confidence =
      str "LOW" :=
  ⟨(claimC8_amended_response_parsing (str "ELIGIBLE: YES") genericCriterion).2.1
      (by decide),
   (claimC8_amended_response_parsing (str "ELIGIBLE: YES") genericCriterion).2.2.1
      (by decide)⟩

/-! ## Claim C4 — how the parser splits on the section delimiter -/

/-- The split worker never returns the empty list of sections. -/
theorem splitOnAux_ne_nil (sep : List Char) :
    ∀ (f : Nat) (s acc : List Char), splitOnAux sep f s acc ≠ [] := by
  intro f
  induction f with
  | zero => intro s acc; cases s <;> simp [splitOnAux]
  | succ f ih =>
    intro s acc
    cases s with
    | nil => simp [splitOnAux]
    | cons c rest =>
      simp only [splitOnAux]
      split
      · simp
      · exact ih rest (c :: acc)

/-- Fuel irrelevance: any fuel of at least the input length computes the same
sections (for a non-empty separator every step consumes at least one
character). -/
theorem splitOnAux_fuel (sep : List Char) (hsep : sep ≠ []) :
    ∀ (n : Nat) (s : List Char) (f : Nat) (acc : List Char),
      s.length ≤ n → s.length ≤ f →
      splitOnAux sep f s acc = splitOnAux sep s.length s acc := by
  intro n
  induction n using Nat.strong_induction_on with
  | _ n ih =>
    intro s f acc hn hf
    cases s with
    | nil => cases f <;> rfl
    | cons c rest =>
      cases f with
      | zero => simp at hf
      | succ f =>
        have hsep1 : 1 ≤ sep.length := List.length_pos.mpr hsep
        have hrest : rest.length < n := by
          simp only [List.length_cons] at hn; omega
        have hrestf : rest.length ≤ f := by
          simp only [List.length_cons] at hf; omega
        simp only [List.length_cons, splitOnAux]
        cases hsw : startsWith sep (c :: rest) with
        | true =>
          simp only [if_true]
          have hdlen : (List.drop sep.length (c :: rest)).length ≤ rest.length := by
            simp only [List.length_drop, List.length_cons]; omega
          rw [ih rest.length hrest _ f [] hdlen (le_trans hdlen hrestf),
            ih rest.length hrest _ rest.length [] hdlen hdlen]
        | false =>
          simp only [Bool.false_eq_true, if_false]
          exact ih rest.length hrest rest f (c :: acc) le_rfl hrestf

/-- The section list computed by the full splitter is the first-occurrence
split followed by the sections of the remainder. -/
theorem splitOnAux_eq_splitFirstAux (sep : List Char) (hsep : sep ≠ []) :
    ∀ (n : Nat) (s : List Char) (f : Nat) (acc : List Char),
      s.length ≤ n → s.length ≤ f →
      splitOnAux sep f s acc =
        match splitFirstAux sep f s acc with
        | none => [acc.reverse ++ s]
        | some (pre, post) => pre :: splitOnSub sep post := by
  intro n
  induction n using Nat.strong_induction_on with
  | _ n ih =>
    intro s f acc hn hf
    cases s with
    | nil => cases f <;> simp [splitOnAux, splitFirstAux]
    | cons c rest =>
      cases f with
      | zero => simp at hf
      | succ f =>
        have hsep1 : 1 ≤ sep.length := List.length_pos.mpr hsep
        have hrest : rest.length < n := by
          simp only [List.length_cons] at hn; omega
        have hrestf : rest.length ≤ f := by
          simp only [List.length_cons] at hf; omega
        simp only [splitOnAux, splitFirstAux]
        cases hsw : startsWith sep (c :: rest) with
        | true =>
          simp only [if_true]
          have hdlen : (List.drop sep.length (c :: rest)).length ≤ rest.length := by
            simp only [List.length_drop, List.length_cons]; omega
          rw [splitOnAux_fuel sep hsep rest.length _ f [] hdlen
            (le_trans hdlen hrestf)]
          rfl
        | false =>
          simp only [Bool.false_eq_true, if_false]
          rw [ih rest.length hrest rest f (c :: acc) le_rfl hrestf]
          cases splitFirstAux sep f rest (c :: acc) with
          | none => simp
          | some pr => rfl

/-- Top-level corollary: splitting is one first-occurrence split, then
splitting the remainder. -/
theorem splitOnSub_eq_splitFirst (sep s : List Char) (hsep : sep ≠ []) :
    splitOnSub sep s =
      match splitFirst sep s with
      | none => [s]
      | some (pre, post) => pre :: splitOnSub sep post := by
  have h := splitOnAux_eq_splitFirstAux sep hsep s.length s s.length [] le_rfl le_rfl
  simpa [splitOnSub, splitFirst] using h

/-- An eligibility text in which the delimiter occurs twice. -/
def doubleExclusionText : List Char :=
  str "Exclusion Criteria:\nAAAAAAAAAAAAAAAA\nExclusion Criteria:\nBBBBBBBBBBBBBBBB"

/-- Counterexample to C4: with two occurrences of `"Exclusion Criteria:"`, the
claimed first-occurrence split would type every item of the entire tail as
exclusion, but Python `str.split` cuts at *every* occurrence and the source
consumes only `sections[1]`, discarding the text after the second
occurrence. -/
theorem claimC4_counterexample :
    parse_eligibility_criteria doubleExclusionText ≠
      parse_eligibility_criteria_claim doubleExclusionText := by
  decide

/-- Amended C4: an empty eligibility text yields no criteria, and for every
text in which the delimiter `"Exclusion Criteria:"` occurs at most once
(i.e. the split produces at most two sections) the parser behaves exactly
as claimed: items before the first occurrence (header removed) are
inclusion, items after it are exclusion.  With two or more occurrences the
source keeps only the text between the first two. -/
theorem claimC4_amended_single_delimiter :
    parse_eligibility_criteria [] = [] ∧
    ∀ t : List Char, (splitOnSub ECdelim t).length ≤ 2 →
      parse_eligibility_criteria t = parse_eligibility_criteria_claim t := by
  refine ⟨rfl, fun t h => ?_⟩
  by_cases ht : t = []
  · subst ht; rfl
  · have hd : ECdelim ≠ [] := by decide
    cases hsf : splitFirst ECdelim t with
    | none =>
      have hsplit : splitOnSub ECdelim t = [t] := by
        rw [splitOnSub_eq_splitFirst ECdelim t hd, hsf]
      simp [parse_eligibility_criteria, parse_eligibility_criteria_claim,
        hsf, hsplit, ht]
    | some pr =>
      obtain ⟨pre, post⟩ := pr
      cases hsf2 : splitFirst ECdelim post with
      | none =>
        have hpost : splitOnSub ECdelim post = [post] := by
          rw [splitOnSub_eq_splitFirst ECdelim post hd, hsf2]
        have hsplit : splitOnSub ECdelim t = [pre, post] := by
          rw [splitOnSub_eq_splitFirst ECdelim t hd, hsf]
          show pre :: splitOnSub ECdelim post = [pre, post]
          rw [hpost]
        simp [parse_eligibility_criteria, parse_eligibility_criteria_claim,
          hsf, hsplit, ht]
      | some pr2 =>
        obtain ⟨pre2, post2⟩ := pr2
        have hpost : splitOnSub ECdelim post = pre2 :: splitOnSub ECdelim post2 := by
          rw [splitOnSub_eq_splitFirst ECdelim post hd, hsf2]
        have hsplit : splitOnSub ECdelim t =
            pre :: pre2 :: splitOnSub ECdelim post2 := by
          rw [splitOnSub_eq_splitFirst ECdelim t hd, hsf]
          show pre :: splitOnSub ECdelim post = _
          rw [hpost]
        rw [hsplit] at h
        cases hl : splitOnSub ECdelim post2 with
        | nil => exact absurd hl (splitOnAux_ne_nil ECdelim post2.length post2 [])
        | cons x xs => rw [hl] at h; simp at h

/-- Witness for the amended C4 at the specification's own example text. -/
theorem claimC4_amended_single_delimiter_witness :
    parse_eligibility_criteria
        (str "Inclusion Criteria:\n1. Diabetes diagnosis\nExclusion Criteria:\n1. Cancer history") =
      parse_eligibility_criteria_claim
        (str "Inclusion Criteria:\n1. Diabetes diagnosis\nExclusion Criteria:\n1. Cancer history") :=
  claimC4_amended_single_delimiter.2 _ (by decide)

/-! ## Claim C9 — infrastructure: occurrences of a separator -/

/-- A non-empty pattern never starts the empty string. -/
theorem startsWith_nil_right (sep : List Char) (hsep : sep ≠ []) :
    startsWith sep [] = false := by
  cases sep with
  | nil => exact absurd rfl hsep
  | cons c cs => rfl

/-- Every pattern starts a string it prefixes. -/
theorem startsWith_append_self : ∀ (p v : List Char), startsWith p (p ++ v) = true := by
  intro p
  induction p with
  | nil => intro v; rfl
  | cons a p' ih => intro v; simp [startsWith, ih]

/-- Whether a pattern starts a string is decided within the first
`p.length` characters. -/
theorem startsWith_append_left : ∀ (p u v : List Char), p.length ≤ u.length →
    startsWith p (u ++ v) = startsWith p u := by
  intro p
  induction p with
  | nil => intro u v _; rfl
  | cons a p' ih =>
    intro u v h
    cases u with
    | nil => simp at h
    | cons b u' =>
      show (a == b && startsWith p' (u' ++ v)) = (a == b && startsWith p' u')
      rw [ih u' v (by simpa using h)]

/-- A started string agrees with the pattern position by position. -/
theorem startsWith_get? : ∀ (p s : List Char), startsWith p s = true →
    ∀ j, j < p.length → s.get? j = p.get? j := by
  intro p
  induction p with
  | nil => intro s _ j hj; simp at hj
  | cons a p' ih =>
    intro s h j hj
    cases s with
    | nil => rw [startsWith_nil_right (a :: p') (by simp)] at h; exact absurd h (by simp)
    | cons b s' =>
      simp only [startsWith, Bool.and_eq_true, beq_iff_eq] at h
      obtain ⟨hab, h'⟩ := h
      cases j with
      | zero => simp [hab]
      | succ j =>
        simp only [List.get?]
        exact ih s' h' j (by simpa using hj)

/-- If `sep` does not occur as a substring, it starts no suffix. -/
theorem containsSub_false_startsWith (sep : List Char) (hsep : sep ≠ [])
    (s : List Char) (h : containsSub sep s = false) :
    ∀ i, startsWith sep (List.drop i s) = false := by
  intro i
  by_cases hi : i ≤ s.length
  · simp only [containsSub, List.any_eq_false, List.mem_range] at h
    have := h i (by omega)
    simpa using this
  · rw [List.drop_eq_nil_of_le (by omega)]
    exact startsWith_nil_right sep hsep

/-- A character not occurring in a string starts none of its suffixes. -/
theorem single_no_occurrence (c : Char) (l : List Char) (h : c ∉ l) :
    ∀ i, startsWith [c] (List.drop i l) = false := by
  intro i
  cases hs : startsWith [c] (List.drop i l) with
  | false => rfl
  | true =>
    exfalso
    have h0 := startsWith_get? [c] _ hs 0 (by simp)
    rw [List.get?_drop] at h0
    exact h (List.get?_mem (by simpa using h0))

/-- Joining with a separator distributes over list append (both sides
non-empty). -/
theorem interLC_append (sep : List Char) : ∀ (xs ys : List (List Char)),
    xs ≠ [] → ys ≠ [] →
    interLC sep (xs ++ ys) = interLC sep xs ++ sep ++ interLC sep ys := by
  intro xs
  induction xs with
  | nil => intro ys h; exact absurd rfl h
  | cons x xs' ih =>
    intro ys hx hy
    cases xs' with
    | nil =>
      cases ys with
      | nil => exact absurd rfl hy
      | cons y ys' => rfl
    | cons x₂ xs'' =>
      show x ++ sep ++ interLC sep ((x₂ :: xs'') ++ ys) =
        interLC sep (x :: x₂ :: xs'') ++ sep ++ interLC sep ys
      rw [ih ys (by simp) hy]
      show _ = (x ++ sep ++ interLC sep (x₂ :: xs'')) ++ sep ++ interLC sep ys
      simp [List.append_assoc]

/-- A separator free of newlines and absent from every line does not occur
anywhere in the newline-join of the lines. -/
theorem no_occurrence_in_joined (sep : List Char) (hsep : sep ≠ [])
    (hnl : '\n' ∉ sep) :
    ∀ (lines : List (List Char)), (∀ l ∈ lines, containsSub sep l = false) →
      ∀ i, startsWith sep (List.drop i (interLC ['\n'] lines)) = false := by
  intro lines
  induction lines with
  | nil =>
    intro _ i
    simp only [interLC, List.drop_nil]
    exact startsWith_nil_right sep hsep
  | cons l rest ih =>
    intro h i
    cases rest with
    | nil => exact containsSub_false_startsWith sep hsep l (h l (by simp)) i
    | cons l₂ rest₂ =>
      have hR : interLC ['\n'] (l :: l₂ :: rest₂) =
          l ++ '\n' :: interLC ['\n'] (l₂ :: rest₂) := by
        simp [interLC]
      rw [hR]
      by_cases h1 : i + sep.length ≤ l.length
      · have hdrop : List.drop i (l ++ '\n' :: interLC ['\n'] (l₂ :: rest₂)) =
            List.drop i l ++ '\n' :: interLC ['\n'] (l₂ :: rest₂) := by
          rw [List.drop_append_eq_append_drop, Nat.sub_eq_zero_of_le (by omega),
            List.drop_zero]
        rw [hdrop, startsWith_append_left sep _ _ (by simp [List.length_drop]; omega)]
        exact containsSub_false_startsWith sep hsep l (h l (by simp)) i
      · by_cases h2 : i ≤ l.length
        · cases hs : startsWith sep
            (List.drop i (l ++ '\n' :: interLC ['\n'] (l₂ :: rest₂))) with
          | false => rfl
          | true =>
            exfalso
            have hj : l.length - i < sep.length := by omega
            have hget := startsWith_get? sep _ hs (l.length - i) hj
            rw [List.get?_drop] at hget
            have hidx : i + (l.length - i) = l.length := by omega
            rw [hidx] at hget
            rw [List.get?_append_right (le_refl l.length)] at hget
            simp only [Nat.sub_self] at hget
            have : sep.get? (l.length - i) = some '\n' := by simpa using hget.symm
            exact hnl (List.get?_mem this)
        · have hdrop : List.drop i (l ++ '\n' :: interLC ['\n'] (l₂ :: rest₂)) =
              List.drop (i - l.length - 1) (interLC ['\n'] (l₂ :: rest₂)) := by
            rw [List.drop_append_eq_append_drop,
              List.drop_eq_nil_of_le (by omega), List.nil_append]
            have heq : i - l.length = (i - l.length - 1) + 1 := by omega
            rw [heq, List.drop_succ_cons]
            have heq2 : i - l.length - 1 + 1 - 1 = i - l.length - 1 := by omega
            rw [heq2]
          rw [hdrop]
          exact ih (fun x hx => h x (by simp [hx])) (i - l.length - 1)

/-- When `sep` occurs nowhere in `s`, splitting yields the single section
`acc.reverse ++ s`. -/
theorem splitOnAux_no_occurrence (sep : List Char) :
    ∀ (s acc : List Char) (f : Nat), s.length ≤ f →
      (∀ i, startsWith sep (List.drop i s) = false) →
      splitOnAux sep f s acc = [acc.reverse ++ s] := by
  intro s
  induction s with
  | nil => intro acc f _ _; cases f <;> simp [splitOnAux]
  | cons c s' ih =>
    intro acc f hf h
    cases f with
    | zero => simp at hf
    | succ f =>
      simp only [splitOnAux]
      have h0 : startsWith sep (c :: s') = false := by simpa using h 0
      simp only [h0, Bool.false_eq_true, if_false]
      rw [ih (c :: acc) f (by simpa using hf)
        (fun i => by simpa using h (i + 1))]
      simp

/-- Splitting a separator-free string yields one section. -/
theorem splitOnSub_no_occurrence (sep s : List Char)
    (h : ∀ i, startsWith sep (List.drop i s) = false) :
    splitOnSub sep s = [s] := by
  have h2 := splitOnAux_no_occurrence sep s [] s.length le_rfl h
  simpa [splitOnSub] using h2

/-- Splitting `A ++ sep ++ B` when no occurrence of `sep` begins inside `A`
cuts exactly at the exhibited occurrence. -/
theorem splitOnAux_append_sep (sep : List Char) (hsep : sep ≠ []) :
    ∀ (A acc : List Char) (f : Nat) (B : List Char),
      (A ++ sep ++ B).length ≤ f →
      (∀ i, i < A.length → startsWith sep (List.drop i (A ++ sep ++ B)) = false) →
      splitOnAux sep f (A ++ sep ++ B) acc = (acc.reverse ++ A) :: splitOnSub sep B := by
  intro A
  induction A with
  | nil =>
    intro acc f B hf h
    simp only [List.nil_append] at hf ⊢
    cases sep with
    | nil => exact absurd rfl hsep
    | cons c sep' =>
      cases f with
      | zero => simp at hf
      | succ f =>
        show splitOnAux (c :: sep') (f + 1) (c :: (sep' ++ B)) acc =
          (acc.reverse ++ []) :: splitOnSub (c :: sep') B
        simp only [splitOnAux]
        have hsw : startsWith (c :: sep') (c :: (sep' ++ B)) = true := by
          show (c == c && startsWith sep' (sep' ++ B)) = true
          simp [startsWith_append_self]
        simp only [hsw, if_true]
        have hdrop : List.drop (c :: sep').length (c :: (sep' ++ B)) = B := by
          simp only [List.length_cons, List.drop_succ_cons]
          exact List.drop_left sep' B
        rw [hdrop]
        have hBf : B.length ≤ f := by
          simp only [List.length_cons, List.length_append] at hf
          omega
        rw [splitOnAux_fuel (c :: sep') (by simp) B.length B f [] le_rfl hBf]
        simp [splitOnSub]
  | cons a A' ih =>
    intro acc f B hf h
    cases f with
    | zero => simp at hf
    | succ f =>
      show splitOnAux sep (f + 1) (a :: (A' ++ sep ++ B)) acc =
        (acc.reverse ++ a :: A') :: splitOnSub sep B
      simp only [splitOnAux]
      have h0 : startsWith sep (a :: (A' ++ sep ++ B)) = false := by
        have h00 := h 0 (by simp)
        simpa using h00
      simp only [h0, Bool.false_eq_true, if_false]
      have hlen : (A' ++ sep ++ B).length ≤ f := by
        simp only [List.cons_append, List.length_cons] at hf
        simp only [List.length_append]
        simp only [List.length_append] at hf
        omega
      rw [ih (a :: acc) f B hlen
        (fun i hi => by
          have hh := h (i + 1) (by simp; omega)
          simpa using hh)]
      simp

/-- Top-level form of the previous lemma. -/
theorem splitOnSub_append_sep (sep : List Char) (hsep : sep ≠ [])
    (A B : List Char)
    (h : ∀ i, i < A.length → startsWith sep (List.drop i (A ++ sep ++ B)) = false) :
    splitOnSub sep (A ++ sep ++ B) = A :: splitOnSub sep B := by
  have h2 := splitOnAux_append_sep sep hsep A [] (A ++ sep ++ B).length B le_rfl h
  simpa [splitOnSub] using h2

/-- Splitting a single-character join on that character recovers the parts. -/
theorem splitOnSub_single_interLC (c : Char) :
    ∀ (parts : List (List Char)), parts ≠ [] → (∀ p ∈ parts, c ∉ p) →
      splitOnSub [c] (interLC [c] parts) = parts := by
  intro parts
  induction parts with
  | nil => intro h; exact absurd rfl h
  | cons x parts' ih =>
    intro _ h
    cases parts' with
    | nil =>
      show splitOnSub [c] x = [x]
      exact splitOnSub_no_occurrence [c] x
        (single_no_occurrence c x (h x (by simp)))
    | cons y rest =>
      show splitOnSub [c] (x ++ [c] ++ interLC [c] (y :: rest)) = x :: y :: rest
      rw [splitOnSub_append_sep [c] (by simp) x (interLC [c] (y :: rest))
        (fun i hi => by
          have hdrop : List.drop i (x ++ [c] ++ interLC [c] (y :: rest)) =
              List.drop i x ++ ([c] ++ interLC [c] (y :: rest)) := by
            rw [List.append_assoc, List.drop_append_eq_append_drop,
              Nat.sub_eq_zero_of_le (by omega), List.drop_zero]
          rw [hdrop, startsWith_append_left [c] _ _
            (by simp only [List.length_drop, List.length_cons, List.length_nil]; omega)]
          exact single_no_occurrence c x (h x (by simp)) i)]
      rw [ih (by simp) (fun p hp => h p (by simp [hp]))]

/-- No occurrence of a newline-free separator begins inside the block
`interLC lines ++ "\n"` when the separator occurs in no line: an
occurrence inside a line is excluded by hypothesis and an occurrence
straddling the final newline would have to contain that newline. -/
theorem no_occurrence_before_sep (sep : List Char) (hsep : sep ≠ [])
    (hnl : '\n' ∉ sep) (lines : List (List Char))
    (hlines : ∀ l ∈ lines, containsSub sep l = false) (hln : lines ≠ [])
    (B : List Char) :
    ∀ i, i < (interLC ['\n'] lines ++ ['\n']).length →
      startsWith sep
        (List.drop i ((interLC ['\n'] lines ++ ['\n']) ++ sep ++ B)) = false := by
  intro i hi
  set A := interLC ['\n'] lines ++ ['\n'] with hA
  have hAlines : A = interLC ['\n'] (lines ++ [[]]) := by
    rw [hA, interLC_append ['\n'] lines [[]] hln (by simp)]
    simp [interLC]
  by_cases hcase : i + sep.length ≤ A.length
  · have hdrop : List.drop i (A ++ sep ++ B) = List.drop i A ++ (sep ++ B) := by
      rw [List.append_assoc, List.drop_append_eq_append_drop,
        Nat.sub_eq_zero_of_le (by omega), List.drop_zero]
    rw [hdrop, startsWith_append_left sep _ _
      (by simp only [List.length_drop]; omega)]
    rw [hAlines]
    refine no_occurrence_in_joined sep hsep hnl (lines ++ [[]]) ?_ i
    intro l hl
    rcases List.mem_append.mp hl with hmem | hmem
    · exact hlines l hmem
    · simp only [List.mem_singleton] at hmem
      subst hmem
      simp [containsSub, startsWith_nil_right sep hsep]
  · cases hs : startsWith sep (List.drop i (A ++ sep ++ B)) with
    | false => rfl
    | true =>
      exfalso
      have hj : A.length - 1 - i < sep.length := by omega
      have hget := startsWith_get? sep _ hs (A.length - 1 - i) hj
      rw [List.get?_drop] at hget
      have hidx : i + (A.length - 1 - i) = A.length - 1 := by omega
      rw [hidx] at hget
      have hlt : A.length - 1 < A.length := by
        have hApos : 0 < A.length := by simp [hA]
        omega
      rw [List.append_assoc, List.get?_append hlt] at hget
      have hAget : A.get? (A.length - 1) = some '\n' := by
        rw [hA]
        have hlen1 : (interLC ['\n'] lines ++ ['\n']).length - 1 =
            (interLC ['\n'] lines).length := by simp
        rw [hlen1, List.get?_append_right (le_refl _)]
        simp
      rw [hAget] at hget
      exact hnl (List.get?_mem hget.symm)

/-! ## Claim C9 — infrastructure: stripping -/

/-- The head of a whitespace-dropped list is not whitespace. -/
theorem head?_dropWhile_ws (l : List Char) :
    ∀ d, (l.dropWhile Char.isWhitespace).head? = some d →
      Char.isWhitespace d = false := by
  induction l with
  | nil => intro d h; simp at h
  | cons a l' ih =>
    intro d h
    rw [List.dropWhile_cons] at h
    cases ha : Char.isWhitespace a with
    | true => rw [if_pos ha] at h; exact ih d h
    | false =>
      simp only [ha, Bool.false_eq_true, if_false, List.head?_cons,
        Option.some.injEq] at h
      subst h
      exact ha

/-- Dropping leading whitespace from a list with a non-whitespace head is the
identity. -/
theorem dropWhile_eq_self_of_head (l : List Char)
    (h : ∀ d, l.head? = some d → Char.isWhitespace d = false) :
    l.dropWhile Char.isWhitespace = l := by
  cases l with
  | nil => rfl
  | cons a l' => rw [List.dropWhile_cons]; simp [h a rfl]

/-- Stripping a list whose two ends are not whitespace is the identity. -/
theorem pyStrip_eq_self (l : List Char)
    (hh : ∀ d, l.head? = some d → Char.isWhitespace d = false)
    (hl : ∀ d, l.getLast? = some d → Char.isWhitespace d = false) :
    pyStrip l = l := by
  unfold pyStrip
  rw [dropWhile_eq_self_of_head l hh,
    dropWhile_eq_self_of_head l.reverse
      (by intro d hd; rw [List.head?_reverse] at hd; exact hl d hd),
    List.reverse_reverse]

/-- A leading whitespace character is removed by the strip. -/
theorem pyStrip_cons_ws (c : Char) (hc : Char.isWhitespace c = true)
    (l : List Char) : pyStrip (c :: l) = pyStrip l := by
  unfold pyStrip
  rw [List.dropWhile_cons, if_pos hc]

/-- A trailing whitespace character is removed by the strip when the rest is
already clean. -/
theorem pyStrip_append_ws (l : List Char) (c : Char)
    (hc : Char.isWhitespace c = true)
    (hh : ∀ d, l.head? = some d → Char.isWhitespace d = false)
    (hl : ∀ d, l.getLast? = some d → Char.isWhitespace d = false)
    (hne : l ≠ []) :
    pyStrip (l ++ [c]) = l := by
  unfold pyStrip
  have h1 : (l ++ [c]).dropWhile Char.isWhitespace = l ++ [c] := by
    refine dropWhile_eq_self_of_head _ ?_
    intro d hd
    cases l with
    | nil => exact absurd rfl hne
    | cons a l' =>
      simp only [List.cons_append, List.head?_cons, Option.some.injEq] at hd
      subst hd
      exact hh a rfl
  rw [h1, List.reverse_append]
  show (List.dropWhile Char.isWhitespace (c :: l.reverse)).reverse = l
  rw [List.dropWhile_cons, if_pos hc,
    dropWhile_eq_self_of_head l.reverse
      (by intro d hd; rw [List.head?_reverse] at hd; exact hl d hd)]
  exact List.reverse_reverse l

/-- The last character of a stripped string is not whitespace. -/
theorem pyStrip_getLast?_clean (v : List Char) :
    ∀ d, (pyStrip v).getLast? = some d → Char.isWhitespace d = false := by
  intro d hd
  unfold pyStrip at hd
  rw [List.getLast?_reverse] at hd
  exact head?_dropWhile_ws _ d hd

/-- The first character of a stripped string is not whitespace. -/
theorem pyStrip_head?_clean (v : List Char) :
    ∀ d, (pyStrip v).head? = some d → Char.isWhitespace d = false := by
  intro d hd
  unfold pyStrip at hd
  rw [List.head?_reverse] at hd
  obtain ⟨w, hw⟩ := List.dropWhile_suffix
    (l := (v.dropWhile Char.isWhitespace).reverse) (p := Char.isWhitespace)
  have hne : (v.dropWhile Char.isWhitespace).reverse.dropWhile Char.isWhitespace
      ≠ [] := by
    intro h0
    rw [h0] at hd
    simp at hd
  have hlast : (v.dropWhile Char.isWhitespace).reverse.getLast? = some d := by
    rw [← hw, List.getLast?_append_of_ne_nil w hne]
    exact hd
  rw [List.getLast?_reverse] at hlast
  exact head?_dropWhile_ws v d hlast

/-- What a kept item of `extract_criteria_items` looks like: longer than 10
characters and whitespace-clean at both ends. -/
theorem processItem_facts (u t : List Char) (h : processItem u = some t) :
    10 < t.length ∧
    (∀ d, t.head? = some d → Char.isWhitespace d = false) ∧
    (∀ d, t.getLast? = some d → Char.isWhitespace d = false) := by
  unfold processItem at h
  by_cases h1 : pyStrip u = []
  · rw [if_pos h1] at h; exact absurd h (by simp)
  · rw [if_neg h1] at h
    by_cases h2 : 10 <
        (pyStrip (pyLStrip numberChars
          (pyStrip (pyLStrip bulletChars (pyStrip u))))).length
    · rw [if_pos h2] at h
      simp only [Option.some.injEq] at h
      subst h
      exact ⟨h2, pyStrip_head?_clean _, pyStrip_getLast?_clean _⟩
    · rw [if_neg h2] at h; exact absurd h (by simp)

/-! ## Claim C9 — infrastructure: joined lines and extraction -/

/-- Taking `head?` looks only at a non-empty left factor. -/
theorem head?_append_of_ne_nil (x y : List Char) (h : x ≠ []) :
    (x ++ y).head? = x.head? := by
  cases x with
  | nil => exact absurd rfl h
  | cons a x' => rfl

/-- The head of a join is the head of its first part. -/
theorem interLC_head? (sep x : List Char) (ps : List (List Char))
    (hx : x ≠ []) : (interLC sep (x :: ps)).head? = x.head? := by
  cases ps with
  | nil => rfl
  | cons y ys =>
    show (x ++ sep ++ interLC sep (y :: ys)).head? = x.head?
    rw [List.append_assoc]
    exact head?_append_of_ne_nil x _ hx

/-- The last element of a join is the last element of its last part. -/
theorem interLC_getLast? (sep : List Char) :
    ∀ (ps : List (List Char)) (x : List Char), x ≠ [] →
      (interLC sep (ps ++ [x])).getLast? = x.getLast? := by
  intro ps
  induction ps with
  | nil => intro x _; rfl
  | cons p ps' ih =>
    intro x hx
    have hIH := ih x hx
    have hne2 : interLC sep (ps' ++ [x]) ≠ [] := by
      intro h0
      rw [h0] at hIH
      simp only [List.getLast?_nil] at hIH
      exact hx (List.getLast?_eq_none_iff.mp hIH.symm)
    cases ps' with
    | nil =>
      show (p ++ sep ++ x).getLast? = x.getLast?
      exact List.getLast?_append_of_ne_nil _ hx
    | cons q qs' =>
      show (p ++ sep ++ interLC sep ((q :: qs') ++ [x])).getLast? = x.getLast?
      rw [List.getLast?_append_of_ne_nil _ hne2]
      exact hIH

/-- Items produced by `extract_criteria_items` carry the requested type. -/
theorem extract_criteria_items_type (text : List Char) (ty : CriterionType) :
    ∀ c ∈ extract_criteria_items text ty, c.type = ty := by
  intro c hc
  simp only [extract_criteria_items, List.mem_filterMap] at hc
  obtain ⟨a, _, ha⟩ := hc
  cases hp : processItem a with
  | none => rw [hp] at ha; exact absurd ha (by simp)
  | some v =>
    rw [hp] at ha
    simp only [Option.some.injEq] at ha
    rw [← ha]

/-- Extraction over lines that are all fixed points of the item pipeline. -/
theorem filterMap_stable (ty : CriterionType) :
    ∀ (txts : List (List Char)), (∀ x ∈ txts, processItem x = some x) →
      (txts.filterMap fun line0 =>
        match processItem line0 with
        | some line => some { criterion := line, type := ty }
        | none => none) =
      txts.map fun x => ({ criterion := x, type := ty } : Criterion) := by
  intro txts
  induction txts with
  | nil => intro _; rfl
  | cons a l ih =>
    intro hp
    have ha := hp a (List.mem_cons_self a l)
    simp only [List.filterMap_cons, ha, List.map_cons]
    exact congrArg (List.cons _) (ih fun x hx => hp x (List.mem_cons_of_mem a hx))

/-- Running `extract_criteria_items` on a newline-join of stable items returns exactly
those items. -/
theorem extract_interLC (txts : List (List Char)) (ty : CriterionType)
    (hne : txts ≠ []) (hnl : ∀ x ∈ txts, '\n' ∉ x)
    (hp : ∀ x ∈ txts, processItem x = some x) :
    extract_criteria_items (interLC ['\n'] txts) ty =
      txts.map fun x => ({ criterion := x, type := ty } : Criterion) := by
  unfold extract_criteria_items
  rw [splitOnSub_single_interLC '\n' txts hne hnl]
  exact filterMap_stable ty txts hp

/-- Serialization of an inclusion block followed by an exclusion block. -/
theorem serialize_eq (I E : List Criterion)
    (hI : ∀ c ∈ I, c.type = CriterionType.inclusion)
    (hE : ∀ c ∈ E, c.type = CriterionType.exclusion) :
    serialize_criteria (I ++ E) =
      interLC ['\n'] (ICheader :: (I.map Criterion.criterion ++
        ECdelim :: E.map Criterion.criterion)) := by
  unfold serialize_criteria
  have h1 : (I ++ E).filter (fun c => decide (c.type = CriterionType.inclusion))
      = I := by
    rw [List.filter_append,
      List.filter_eq_self.mpr (fun a ha => by simp [hI a ha]),
      List.filter_eq_nil_iff.mpr (fun a ha => by simp [hE a ha]),
      List.append_nil]
  have h2 : (I ++ E).filter (fun c => decide (c.type = CriterionType.exclusion))
      = E := by
    rw [List.filter_append,
      List.filter_eq_nil_iff.mpr (fun a ha => by simp [hI a ha]),
      List.filter_eq_self.mpr (fun a ha => by simp [hE a ha]),
      List.nil_append]
  rw [h1, h2]

/-- The join of pipeline-stable items starts with a non-whitespace character. -/
theorem interLC_items_head_clean (txts : List (List Char)) (hne : txts ≠ [])
    (hp : ∀ x ∈ txts, processItem x = some x) :
    ∀ d, (interLC ['\n'] txts).head? = some d → Char.isWhitespace d = false := by
  intro d hd
  cases txts with
  | nil => exact absurd rfl hne
  | cons x rest =>
    have hx := processItem_facts x x (hp x (by simp))
    have hxne : x ≠ [] := by intro h0; rw [h0] at hx; simp at hx
    rw [interLC_head? _ x rest hxne] at hd
    exact hx.2.1 d hd

/-- The join of pipeline-stable items ends with a non-whitespace character. -/
theorem interLC_items_getLast_clean (txts : List (List Char)) (hne : txts ≠ [])
    (hp : ∀ x ∈ txts, processItem x = some x) :
    ∀ d, (interLC ['\n'] txts).getLast? = some d → Char.isWhitespace d = false := by
  intro d hd
  rcases List.eq_nil_or_concat txts with h0 | ⟨L, b, hLb⟩
  · exact absurd h0 hne
  · subst hLb
    have hb := processItem_facts b b (hp b (by simp))
    have hbne : b ≠ [] := by intro h0; rw [h0] at hb; simp at hb
    rw [List.concat_eq_append, interLC_getLast? _ L b hbne] at hd
    exact hb.2.2 d hd

/-- The join of pipeline-stable items is non-empty. -/
theorem interLC_items_ne_nil (txts : List (List Char)) (hne : txts ≠ [])
    (hp : ∀ x ∈ txts, processItem x = some x) :
    interLC ['\n'] txts ≠ [] := by
  cases txts with
  | nil => exact absurd rfl hne
  | cons x rest =>
    have hx := processItem_facts x x (hp x (by simp))
    have hxne : x ≠ [] := by intro h0; rw [h0] at hx; simp at hx
    intro h0
    have hh := interLC_head? ['\n'] x rest hxne
    rw [h0] at hh
    cases x with
    | nil => exact hxne rfl
    | cons a x' => exact absurd hh.symm (by simp)

/-- Re-parsing the serialization of an inclusion block followed by an
exclusion block recovers the blocks, provided every item is a fixed point
of the per-line pipeline and is free of newlines and of the two section
markers. -/
theorem parse_serialize (I E : List Criterion)
    (hI : ∀ c ∈ I, c.type = CriterionType.inclusion)
    (hE : ∀ c ∈ E, c.type = CriterionType.exclusion)
    (hstable : ∀ c ∈ I ++ E, processItem c.criterion = some c.criterion)
    (hnl : ∀ c ∈ I ++ E, '\n' ∉ c.criterion)
    (hec : ∀ c ∈ I ++ E, containsSub ECdelim c.criterion = false)
    (hic : ∀ c ∈ I ++ E, containsSub ICheader c.criterion = false) :
    parse_eligibility_criteria (serialize_criteria (I ++ E)) = I ++ E := by
  set incT := I.map Criterion.criterion with hincT
  set excT := E.map Criterion.criterion with hexcT
  have hstableI : ∀ x ∈ incT, processItem x = some x := by
    intro x hx
    rw [hincT] at hx
    obtain ⟨c, hc, rfl⟩ := List.mem_map.mp hx
    exact hstable c (List.mem_append_left E hc)
  have hstableE : ∀ x ∈ excT, processItem x = some x := by
    intro x hx
    rw [hexcT] at hx
    obtain ⟨c, hc, rfl⟩ := List.mem_map.mp hx
    exact hstable c (List.mem_append_right I hc)
  have hnlI : ∀ x ∈ incT, '\n' ∉ x := by
    intro x hx
    rw [hincT] at hx
    obtain ⟨c, hc, rfl⟩ := List.mem_map.mp hx
    exact hnl c (List.mem_append_left E hc)
  have hnlE : ∀ x ∈ excT, '\n' ∉ x := by
    intro x hx
    rw [hexcT] at hx
    obtain ⟨c, hc, rfl⟩ := List.mem_map.mp hx
    exact hnl c (List.mem_append_right I hc)
  rw [serialize_eq I E hI hE]
  have hlist : (ICheader :: (incT ++ ECdelim :: excT)) =
      (ICheader :: incT) ++ (ECdelim :: excT) := by simp
  rw [hlist, interLC_append ['\n'] (ICheader :: incT) (ECdelim :: excT)
    (by simp) (by simp)]
  have hECside : interLC ['\n'] (ECdelim :: excT) =
      ECdelim ++ (if excT = [] then ([] : List Char)
        else '\n' :: interLC ['\n'] excT) := by
    cases excT with
    | nil => simp [interLC]
    | cons y ys => simp [interLC, List.append_assoc]
  rw [hECside]
  set B := (if excT = [] then ([] : List Char) else '\n' :: interLC ['\n'] excT)
    with hB
  rw [show interLC ['\n'] (ICheader :: incT) ++ ['\n'] ++ (ECdelim ++ B) =
      (interLC ['\n'] (ICheader :: incT) ++ ['\n']) ++ ECdelim ++ B by
    simp [List.append_assoc]]
  set A := interLC ['\n'] (ICheader :: incT) ++ ['\n'] with hA
  have hlinesI : ∀ l ∈ ICheader :: incT, containsSub ECdelim l = false := by
    intro l hl
    rcases List.mem_cons.mp hl with rfl | hl
    · decide
    · rw [hincT] at hl
      obtain ⟨c, hc, rfl⟩ := List.mem_map.mp hl
      exact hec c (List.mem_append_left E hc)
  have hsections : splitOnSub ECdelim (A ++ ECdelim ++ B) =
      A :: splitOnSub ECdelim B := by
    apply splitOnSub_append_sep ECdelim (by decide)
    rw [hA]
    exact no_occurrence_before_sep ECdelim (by decide) (by decide)
      (ICheader :: incT) hlinesI (by simp) B
  have hBsplit : splitOnSub ECdelim B = [B] := by
    apply splitOnSub_no_occurrence ECdelim B
    rw [hB]
    by_cases hex : excT = []
    · rw [if_pos hex]
      intro i
      rw [List.drop_nil]
      exact startsWith_nil_right ECdelim (by decide)
    · rw [if_neg hex]
      have hform : ('\n' :: interLC ['\n'] excT) = interLC ['\n'] ([] :: excT) := by
        rw [show ([] :: excT : List (List Char)) = [[]] ++ excT from rfl,
          interLC_append ['\n'] [[]] excT (by simp) hex]
        rfl
      rw [hform]
      refine no_occurrence_in_joined ECdelim (by decide) (by decide) ([] :: excT) ?_
      intro l hl
      rcases List.mem_cons.mp hl with rfl | hl
      · decide
      · rw [hexcT] at hl
        obtain ⟨c, hc, rfl⟩ := List.mem_map.mp hl
        exact hec c (List.mem_append_right I hc)
  have hAne : A ≠ [] := by rw [hA]; simp
  have hne_text : (A ++ ECdelim ++ B) ≠ [] := by rw [hA]; simp
  have hA_IC : A = ICheader ++
      ((if incT = [] then ([] : List Char) else '\n' :: interLC ['\n'] incT)
        ++ ['\n']) := by
    rw [hA]
    cases incT with
    | nil => simp [interLC]
    | cons x xs => simp [interLC, List.append_assoc]
  set R := ((if incT = [] then ([] : List Char) else '\n' :: interLC ['\n'] incT)
    ++ ['\n']) with hR
  have hRlines : R = interLC ['\n'] (([] :: incT) ++ [[]]) := by
    rw [interLC_append ['\n'] ([] :: incT) [[]] (by simp) (by simp), hR]
    cases incT with
    | nil => simp [interLC]
    | cons x xs => simp [interLC, List.append_assoc]
  have hreplace : pyReplace ICheader [] A = R := by
    unfold pyReplace
    rw [hA_IC]
    have hsplitIC : splitOnSub ICheader (ICheader ++ R) =
        [] :: splitOnSub ICheader R := by
      have h0 := splitOnSub_append_sep ICheader (by decide) [] R
        (by intro i hi; simp at hi)
      simpa using h0
    rw [hsplitIC]
    have hRsplit : splitOnSub ICheader R = [R] := by
      apply splitOnSub_no_occurrence ICheader R
      rw [hRlines]
      refine no_occurrence_in_joined ICheader (by decide) (by decide) _ ?_
      intro l hl
      rcases List.mem_append.mp hl with hl | hl
      · rcases List.mem_cons.mp hl with rfl | hl
        · decide
        · rw [hincT] at hl
          obtain ⟨c, hc, rfl⟩ := List.mem_map.mp hl
          exact hic c (List.mem_append_left E hc)
      · simp only [List.mem_singleton] at hl
        subst hl
        decide
    rw [hRsplit]
    rfl
  have hinc_result :
      extract_criteria_items (pyStrip R) CriterionType.inclusion = I := by
    by_cases hex : incT = []
    · have hInil : I = [] := by
        rw [hincT] at hex
        exact List.map_eq_nil.mp hex
      rw [hR, if_pos hex, hInil]
      decide
    · rw [hR, if_neg hex]
      rw [show ('\n' :: interLC ['\n'] incT) ++ ['\n'] =
        '\n' :: (interLC ['\n'] incT ++ ['\n']) from rfl]
      rw [pyStrip_cons_ws '\n' (by decide) _]
      rw [pyStrip_append_ws (interLC ['\n'] incT) '\n' (by decide)
        (interLC_items_head_clean incT hex hstableI)
        (interLC_items_getLast_clean incT hex hstableI)
        (interLC_items_ne_nil incT hex hstableI)]
      rw [extract_interLC incT CriterionType.inclusion hex hnlI hstableI]
      rw [hincT, List.map_map]
      have hid : ∀ c ∈ I,
          (({ criterion := c.criterion, type := CriterionType.inclusion } : Criterion))
            = c := by
        intro c hc
        have ht := hI c hc
        cases c with
        | mk crit ty =>
          simp only at ht
          rw [ht]
      calc I.map ((fun x => ({ criterion := x, type := CriterionType.inclusion } : Criterion))
            ∘ Criterion.criterion)
          = I.map id := List.map_congr_left (fun c hc => by
            simp only [Function.comp_apply, id]
            exact hid c hc)
        _ = I := List.map_id I
  have hexc_result :
      extract_criteria_items (pyStrip B) CriterionType.exclusion = E := by
    by_cases hex : excT = []
    · have hEnil : E = [] := by
        rw [hexcT] at hex
        exact List.map_eq_nil.mp hex
      rw [hB, if_pos hex, hEnil]
      decide
    · rw [hB, if_neg hex]
      rw [pyStrip_cons_ws '\n' (by decide) _]
      rw [pyStrip_eq_self (interLC ['\n'] excT)
        (interLC_items_head_clean excT hex hstableE)
        (interLC_items_getLast_clean excT hex hstableE)]
      rw [extract_interLC excT CriterionType.exclusion hex hnlE hstableE]
      rw [hexcT, List.map_map]
      have hid : ∀ c ∈ E,
          (({ criterion := c.criterion, type := CriterionType.exclusion } : Criterion))
            = c := by
        intro c hc
        have ht := hE c hc
        cases c with
        | mk crit ty =>
          simp only at ht
          rw [ht]
      calc E.map ((fun x => ({ criterion := x, type := CriterionType.exclusion } : Criterion))
            ∘ Criterion.criterion)
          = E.map id := List.map_congr_left (fun c hc => by
            simp only [Function.comp_apply, id]
            exact hid c hc)
        _ = E := List.map_id E
  simp only [parse_eligibility_criteria]
  rw [if_neg hne_text, hsections, hBsplit]
  simp only [List.head?_cons, List.get?_cons_succ, List.get?_cons_zero]
  rw [if_neg hAne, hreplace, hinc_result, hexc_result]

/-- Parser output is an inclusion block followed by an exclusion block. -/
theorem parse_split (t : List Char) :
    ∃ I E : List Criterion, parse_eligibility_criteria t = I ++ E ∧
      (∀ c ∈ I, c.type = CriterionType.inclusion) ∧
      (∀ c ∈ E, c.type = CriterionType.exclusion) := by
  by_cases ht : t = []
  · exact ⟨[], [], by simp [parse_eligibility_criteria, ht], by simp, by simp⟩
  · refine ⟨(match (splitOnSub ECdelim t).head? with
      | some s0 =>
        if s0 = [] then []
        else extract_criteria_items (pyStrip (pyReplace ICheader [] s0))
          CriterionType.inclusion
      | none => []),
      (match (splitOnSub ECdelim t).get? 1 with
      | some s1 => extract_criteria_items (pyStrip s1) CriterionType.exclusion
      | none => []), ?_, ?_, ?_⟩
    · simp [parse_eligibility_criteria, ht]
    · cases (splitOnSub ECdelim t).head? with
      | none => simp
      | some s0 =>
        by_cases h0 : s0 = []
        · simp [h0]
        · simp only [if_neg h0]
          exact extract_criteria_items_type _ _
    · cases (splitOnSub ECdelim t).get? 1 with
      | none => simp
      | some s1 => exact extract_criteria_items_type _ _

/-- An eligibility text whose single item still carries a strippable digit
prefix after the first parse. -/
def nonIdempotentText : List Char := str "Inclusion Criteria:\n12. 34 abcdefghijk"

/-- Counterexample to C9: the first parse strips the numbering `"12."` and
keeps the item `"34 abcdefghijk"`; re-parsing the serialized output strips
the now-leading `"34"` as numbering again, yielding `"abcdefghijk"` — not
the same sequence of items. -/
theorem claimC9_counterexample :
    parse_eligibility_criteria (serialize_criteria
      (parse_eligibility_criteria nonIdempotentText)) ≠
    parse_eligibility_criteria nonIdempotentText := by
  decide

/-- Amended C9: the parser is idempotent on its own output *provided* every
parsed item is a fixed point of the per-line stripping pipeline (no
leading bullet/digit characters left to strip, still longer than 10
characters) and contains no newline and no occurrence of the two section
markers.  The counterexample shows the proviso is needed: re-stripping can
shorten or drop an item. -/
theorem claimC9_amended_roundtrip (t : List Char)
    (hstable : ∀ c ∈ parse_eligibility_criteria t,
      processItem c.criterion = some c.criterion)
    (hnl : ∀ c ∈ parse_eligibility_criteria t, '\n' ∉ c.criterion)
    (hec : ∀ c ∈ parse_eligibility_criteria t,
      containsSub ECdelim c.criterion = false)
    (hic : ∀ c ∈ parse_eligibility_criteria t,
      containsSub ICheader c.criterion = false) :
    parse_eligibility_criteria (serialize_criteria (parse_eligibility_criteria t))
      = parse_eligibility_criteria t := by
  obtain ⟨I, E, hIE, hI, hE⟩ := parse_split t
  rw [hIE] at hstable hnl hec hic ⊢
  exact parse_serialize I E hI hE hstable hnl hec hic

/-- Witness for the amended C9 at the specification's example text. -/
theorem claimC9_amended_roundtrip_witness :
    parse_eligibility_criteria (serialize_criteria (parse_eligibility_criteria
      (str "Inclusion Criteria:\n1. Diabetes diagnosis\nExclusion Criteria:\n1. Cancer history"))) =
    parse_eligibility_criteria
      (str "Inclusion Criteria:\n1. Diabetes diagnosis\nExclusion Criteria:\n1. Cancer history") :=
  claimC9_amended_roundtrip _ (by decide) (by decide) (by decide) (by decide)
